import Mathlib

/-!
Shallow embedding of the ChessBot rating engine
(`server/services/elo-calculator.ts`: class `EloCalculator`, the
backward-compatibility wrapper `calculateEloChange`) and of the tournament
service contained in the same source file (class `TournamentService`:
bracket generation and `handleGameCompletion` over the storage layer).

Numbers of the JavaScript source are modelled as real numbers; `Math.round`
is `round : ℝ → ℤ` (both round half-integers towards positive infinity),
`Math.pow 10` is the real power `(10:ℝ) ^ ·` and `Math.log10` is
`Real.logb 10`.
-/

/-- Game result from the point of view of the pair of players
(the string union accepted by `calculateNewRatings`). -/
inductive GameResult
  | player1Wins
  | player2Wins
  | draw
deriving DecidableEq

/-- Game result from the point of view of a single player
(the string union accepted by `EloCalculator.calculateEloChange`). -/
inductive SingleResult
  | win
  | loss
  | draw
deriving DecidableEq

/-- The `EloCalculationOptions` interface: every field is optional. -/
structure EloCalculationOptions where
  kFactor : Option ℝ
  provisionalThreshold : Option ℝ
  ratingFloor : Option ℝ
  ratingCeiling : Option ℝ

/-- Reading a numeric field through `options?.field` in a truthiness test or
in `options?.field || default`: the result is unusable (falsy) when `options`
is `undefined`, when the field is absent, and when its value is `0`.
Returns `some x` exactly when the JavaScript read is truthy. -/
noncomputable def optField (options : Option EloCalculationOptions)
    (f : EloCalculationOptions → Option ℝ) : Option ℝ :=
  match options with
  | none => none
  | some o =>
    match f o with
    | none => none
    | some x => if x = 0 then none else some x

/-- The record returned by `calculateNewRatings`. -/
structure EloResult where
  newRatingPlayer1 : ℝ
  newRatingPlayer2 : ℝ
  changePlayer1 : ℝ
  changePlayer2 : ℝ

namespace EloCalculator

/-- `EloCalculator.calculateExpectedScore`. -/
noncomputable def calculateExpectedScore (playerRating opponentRating : ℝ) : ℝ :=
  1 / (1 + (10 : ℝ) ^ ((opponentRating - playerRating) / 400))

/-- `EloCalculator.calculateKFactor`: explicit (truthy) override, else the
provisional K-factor 40 below the provisional games threshold (default 30),
else 16 from rating 2400, 32 from rating 2100, and 40 below. -/
noncomputable def calculateKFactor (playerRating gamesPlayed : ℝ)
    (options : Option EloCalculationOptions) : ℝ :=
  match optField options (fun o => o.kFactor) with
  | some k => k
  | none =>
    if gamesPlayed < (optField options (fun o => o.provisionalThreshold)).getD 30 then
      40
    else if 2400 ≤ playerRating then
      16
    else if 2100 ≤ playerRating then
      32
    else
      40

/-- `EloCalculator.calculateNewRatings`. -/
noncomputable def calculateNewRatings (player1Rating player2Rating : ℝ)
    (player1GamesPlayed player2GamesPlayed : ℝ) (result : GameResult)
    (options : Option EloCalculationOptions) : EloResult :=
  let expectedScore1 := calculateExpectedScore player1Rating player2Rating
  let expectedScore2 := calculateExpectedScore player2Rating player1Rating
  let actualScore1 : ℝ :=
    match result with
    | .player1Wins => 1
    | .player2Wins => 0
    | .draw => 1 / 2
  let actualScore2 : ℝ :=
    match result with
    | .player1Wins => 0
    | .player2Wins => 1
    | .draw => 1 / 2
  let kFactor1 := calculateKFactor player1Rating player1GamesPlayed options
  let kFactor2 := calculateKFactor player2Rating player2GamesPlayed options
  let change1 : ℤ := round (kFactor1 * (actualScore1 - expectedScore1))
  let change2 : ℤ := round (kFactor2 * (actualScore2 - expectedScore2))
  let floor := (optField options (fun o => o.ratingFloor)).getD 100
  let ceiling := (optField options (fun o => o.ratingCeiling)).getD 3000
  let newRating1 := max floor (min ceiling (player1Rating + (change1 : ℝ)))
  let newRating2 := max floor (min ceiling (player2Rating + (change2 : ℝ)))
  { newRatingPlayer1 := newRating1
    newRatingPlayer2 := newRating2
    changePlayer1 := newRating1 - player1Rating
    changePlayer2 := newRating2 - player2Rating }

/-- `EloCalculator.calculateEloChange` (static method); `gamesPlayed`
defaults to 50 at the single call site that omits it, so the default is made
explicit by the caller here. -/
noncomputable def calculateEloChange (playerRating opponentRating : ℝ)
    (result : SingleResult) (gamesPlayed : ℝ) : ℤ :=
  let expectedScore := calculateExpectedScore playerRating opponentRating
  let actualScore : ℝ :=
    match result with
    | .win => 1
    | .loss => 0
    | .draw => 1 / 2
  let kFactor := calculateKFactor playerRating gamesPlayed none
  round (kFactor * (actualScore - expectedScore))

/-- One entry of the `results` array of `calculatePerformanceRating`. -/
structure PerformanceGame where
  opponentRating : ℝ
  result : SingleResult

/-- The per-game score used in the `totalScore` reduction. -/
noncomputable def singleScore : SingleResult → ℝ
  | .win => 1
  | .draw => 1 / 2
  | .loss => 0

/-- `EloCalculator.calculatePerformanceRating`. -/
noncomputable def calculatePerformanceRating (results : List PerformanceGame) : ℤ :=
  if results.length = 0 then 0
  else
    let totalScore := results.foldl (fun sum game => sum + singleScore game.result) 0
    let averageOpponentRating :=
      (results.foldl (fun sum game => sum + game.opponentRating) 0) / (results.length : ℝ)
    let scorePercentage := totalScore / (results.length : ℝ)
    let ratingDifference : ℝ :=
      if scorePercentage = 1 then 400
      else if scorePercentage = 0 then -400
      else 400 * Real.logb 10 (scorePercentage / (1 - scorePercentage))
    round (averageOpponentRating + ratingDifference)

/-- `EloCalculator.calculateRequiredRating`; the thrown
`Target score must be between 0 and 1` error is modelled as `none`. -/
noncomputable def calculateRequiredRating (opponentRating targetScore : ℝ) : Option ℤ :=
  if targetScore ≤ 0 ∨ 1 ≤ targetScore then none
  else
    some (round (opponentRating + 400 * Real.logb 10 (targetScore / (1 - targetScore))))

end EloCalculator

/-- C8 helper: the base of the expected-score formula is positive. -/
lemma rpow_ten_pos (x : ℝ) : 0 < (10 : ℝ) ^ x :=
  Real.rpow_pos_of_pos (by norm_num) x

/-- The two expected scores of a pairing always sum to 1. -/
lemma calculateExpectedScore_add_reverse (a b : ℝ) :
    EloCalculator.calculateExpectedScore a b + EloCalculator.calculateExpectedScore b a = 1 := by
  unfold EloCalculator.calculateExpectedScore
  have hd : (a - b) / 400 = -((b - a) / 400) := by ring
  rw [hd, Real.rpow_neg (by norm_num : (0:ℝ) ≤ 10)]
  have ht : 0 < (10 : ℝ) ^ ((b - a) / 400) := rpow_ten_pos _
  have h1 : 1 + (10 : ℝ) ^ ((b - a) / 400) ≠ 0 := by positivity
  have h2 : (10 : ℝ) ^ ((b - a) / 400) ≠ 0 := ne_of_gt ht
  field_simp
  ring

/-- Against an equally rated opponent the expected score is one half. -/
lemma calculateExpectedScore_self (r : ℝ) :
    EloCalculator.calculateExpectedScore r r = 1 / 2 := by
  unfold EloCalculator.calculateExpectedScore
  rw [sub_self, zero_div, Real.rpow_zero]
  norm_num

/-- C8. For all ratings `a`, `b`, the two expected scores sum to 1 (exactly,
in real arithmetic, hence within floating-point tolerance), and the expected
score of a player against an equally rated opponent is 1/2. -/
theorem expectedScore_sum_one_and_half (a b : ℝ) :
    EloCalculator.calculateExpectedScore a b + EloCalculator.calculateExpectedScore b a = 1 ∧
    EloCalculator.calculateExpectedScore a a = 1 / 2 :=
  ⟨calculateExpectedScore_add_reverse a b, calculateExpectedScore_self a⟩

/-- C9. `calculateRequiredRating` fails exactly when the target score lies
outside the open interval (0,1), and returns an integer for every target
score strictly between 0 and 1. -/
theorem calculateRequiredRating_fails_iff (opp p : ℝ) :
    (EloCalculator.calculateRequiredRating opp p = none ↔ (p ≤ 0 ∨ 1 ≤ p)) ∧
    ((∃ z, EloCalculator.calculateRequiredRating opp p = some z) ↔ (0 < p ∧ p < 1)) := by
  unfold EloCalculator.calculateRequiredRating
  by_cases h : p ≤ 0 ∨ 1 ≤ p
  · simp only [if_pos h]
    constructor
    · simpa using h
    · constructor
      · rintro ⟨z, hz⟩
        simp at hz
      · rintro ⟨h0, h1⟩
        rcases h with h | h
        · exact absurd h0 (not_lt.mpr h)
        · exact absurd h1 (not_lt.mpr h)
  · simp only [if_neg h]
    push_neg at h
    constructor
    · simpa using h
    · constructor
      · intro _
        exact h
      · intro _
        exact ⟨_, rfl⟩

/-- C10. `calculatePerformanceRating` applied to the empty result list
returns 0 without failing. -/
theorem calculatePerformanceRating_nil :
    EloCalculator.calculatePerformanceRating [] = 0 := by
  simp [EloCalculator.calculatePerformanceRating]

/-- With no options, a non-provisional player rated below 2100 has K-factor
40 (`LOW_RATING_K_FACTOR`). -/
lemma calculateKFactor_none_low (r g : ℝ) (hg : 30 ≤ g) (hr : r < 2100) :
    EloCalculator.calculateKFactor r g none = 40 := by
  unfold EloCalculator.calculateKFactor optField
  rw [if_neg (not_lt.mpr (by simpa using hg))]
  rw [if_neg (not_le.mpr (lt_trans hr (by norm_num)))]
  rw [if_neg (not_le.mpr hr)]

/-- Evaluation of `calculateNewRatings` on two non-provisional 1200-rated
players when player 1 wins: both K-factors are 40, both expected scores are
one half, so the deltas are +20 and -20. -/
lemma calculateNewRatings_equal1200_eval :
    (EloCalculator.calculateNewRatings 1200 1200 50 50 .player1Wins none).changePlayer1 = 20 ∧
    (EloCalculator.calculateNewRatings 1200 1200 50 50 .player1Wins none).changePlayer2 = -20 := by
  have hk : EloCalculator.calculateKFactor 1200 50 none = 40 :=
    calculateKFactor_none_low 1200 50 (by norm_num) (by norm_num)
  have hr1 : round ((40 : ℝ) * (1 - 1 / 2)) = (20 : ℤ) := by
    rw [show (40 : ℝ) * (1 - 1 / 2) = ((20 : ℤ) : ℝ) by norm_num, round_intCast]
  have hr2 : round ((40 : ℝ) * (0 - 1 / 2)) = (-20 : ℤ) := by
    rw [show (40 : ℝ) * (0 - 1 / 2) = ((-20 : ℤ) : ℝ) by norm_num, round_intCast]
  simp only [EloCalculator.calculateNewRatings, calculateExpectedScore_self, hk, hr1, hr2,
    optField, Option.getD_none]
  push_cast
  rw [min_def, max_def, min_def, max_def]
  norm_num

/-- C1 counterexample. On `calculateNewRatings 1200 1200 50 50 player1_wins`
with no options the rating change of player 1 is not +16 (it is +20: a
non-provisional 1200-rated player falls in the lowest rating band, whose
K-factor is 40, not 32). -/
theorem calculateNewRatings_equal1200_not_sixteen :
    ¬ ((EloCalculator.calculateNewRatings 1200 1200 50 50 .player1Wins none).changePlayer1 = 16 ∧
       (EloCalculator.calculateNewRatings 1200 1200 50 50 .player1Wins none).changePlayer2 = -16) := by
  intro h
  have := calculateNewRatings_equal1200_eval.1
  rw [h.1] at this
  norm_num at this

/-- C1 amended. `calculateNewRatings 1200 1200 50 50 player1_wins` with no
options yields a rating change of +20 for player 1 and -20 for player 2:
both non-provisional 1200-rated players receive K-factor 40 and the expected
score is one half on both sides. -/
theorem calculateNewRatings_equal1200_delta_twenty :
    (EloCalculator.calculateNewRatings 1200 1200 50 50 .player1Wins none).changePlayer1 = 20 ∧
    (EloCalculator.calculateNewRatings 1200 1200 50 50 .player1Wins none).changePlayer2 = -20 :=
  calculateNewRatings_equal1200_eval

/-- C3 counterexample. An explicitly supplied K-factor override of 0 is not
returned: JavaScript truthiness makes `calculateKFactor` ignore it and fall
through to the rating bands, returning 40. -/
theorem calculateKFactor_zero_override_ignored :
    EloCalculator.calculateKFactor 1200 50 (some ⟨some 0, none, none, none⟩) = 40 ∧
    EloCalculator.calculateKFactor 1200 50 (some ⟨some 0, none, none, none⟩) ≠ 0 := by
  have h : EloCalculator.calculateKFactor 1200 50 (some ⟨some 0, none, none, none⟩) = 40 := by
    unfold EloCalculator.calculateKFactor optField
    norm_num
  exact ⟨h, by rw [h]; norm_num⟩

/-- C3 amended. `calculateKFactor` returns the explicit override whenever a
truthy (nonzero) one is supplied; otherwise, when `gamesPlayed` is below the
effective provisional threshold (a truthy supplied one, else the default 30)
it returns 40 regardless of rating; otherwise it returns 16 for rating at
least 2400, 32 for rating at least 2100, and 40 below, the provisional check
taking precedence over the rating bands. -/
theorem calculateKFactor_case_analysis (r g : ℝ) (options : Option EloCalculationOptions) :
    (∀ k, optField options (fun o => o.kFactor) = some k →
        EloCalculator.calculateKFactor r g options = k) ∧
    (optField options (fun o => o.kFactor) = none →
      ((g < (optField options (fun o => o.provisionalThreshold)).getD 30 →
          EloCalculator.calculateKFactor r g options = 40) ∧
       ((optField options (fun o => o.provisionalThreshold)).getD 30 ≤ g →
          ((2400 ≤ r → EloCalculator.calculateKFactor r g options = 16) ∧
           (2100 ≤ r → r < 2400 → EloCalculator.calculateKFactor r g options = 32) ∧
           (r < 2100 → EloCalculator.calculateKFactor r g options = 40))))) := by
  constructor
  · intro k hk
    unfold EloCalculator.calculateKFactor
    rw [hk]
  · intro hk
    unfold EloCalculator.calculateKFactor
    rw [hk]
    constructor
    · intro hg
      rw [if_pos hg]
    · intro hg
      rw [if_neg (not_lt.mpr hg)]
      refine ⟨fun h24 => ?_, fun h21 h24 => ?_, fun h21 => ?_⟩
      · rw [if_pos h24]
      · rw [if_neg (not_le.mpr h24), if_pos h21]
      · rw [if_neg (not_le.mpr (lt_trans h21 (by norm_num))),
          if_neg (not_le.mpr h21)]

/-- C3 witness: a nonzero override of 25 is returned unchanged for a
2500-rated player with 100 games. -/
theorem calculateKFactor_case_analysis_witness :
    EloCalculator.calculateKFactor 2500 100 (some ⟨some 25, none, none, none⟩) = 25 :=
  (calculateKFactor_case_analysis 2500 100 (some ⟨some 25, none, none, none⟩)).1 25
    (by unfold optField; norm_num)

/-- C4. For all input ratings, games-played counts, outcomes and options,
both new ratings returned by `calculateNewRatings` lie within the effective
floor and ceiling (the truthy supplied bounds, else the defaults 100 and
3000), provided the effective floor does not exceed the effective ceiling. -/
theorem calculateNewRatings_clamped (r1 r2 g1 g2 : ℝ) (result : GameResult)
    (options : Option EloCalculationOptions)
    (hfc : (optField options (fun o => o.ratingFloor)).getD 100 ≤
        (optField options (fun o => o.ratingCeiling)).getD 3000) :
    ((optField options (fun o => o.ratingFloor)).getD 100 ≤
        (EloCalculator.calculateNewRatings r1 r2 g1 g2 result options).newRatingPlayer1 ∧
      (EloCalculator.calculateNewRatings r1 r2 g1 g2 result options).newRatingPlayer1 ≤
        (optField options (fun o => o.ratingCeiling)).getD 3000) ∧
    ((optField options (fun o => o.ratingFloor)).getD 100 ≤
        (EloCalculator.calculateNewRatings r1 r2 g1 g2 result options).newRatingPlayer2 ∧
      (EloCalculator.calculateNewRatings r1 r2 g1 g2 result options).newRatingPlayer2 ≤
        (optField options (fun o => o.ratingCeiling)).getD 3000) := by
  simp only [EloCalculator.calculateNewRatings]
  exact ⟨⟨le_max_left _ _, max_le hfc (min_le_left _ _)⟩,
    ⟨le_max_left _ _, max_le hfc (min_le_left _ _)⟩⟩

/-- C4 witness: with no options the new ratings of two 1200-rated players
after a player-1 win lie within the default bounds 100 and 3000. -/
theorem calculateNewRatings_clamped_witness :
    (100 ≤ (EloCalculator.calculateNewRatings 1200 1200 50 50 .player1Wins none).newRatingPlayer1 ∧
      (EloCalculator.calculateNewRatings 1200 1200 50 50 .player1Wins none).newRatingPlayer1 ≤ 3000) ∧
    (100 ≤ (EloCalculator.calculateNewRatings 1200 1200 50 50 .player1Wins none).newRatingPlayer2 ∧
      (EloCalculator.calculateNewRatings 1200 1200 50 50 .player1Wins none).newRatingPlayer2 ≤ 3000) :=
  calculateNewRatings_clamped 1200 1200 50 50 .player1Wins none
    (by show (100 : ℝ) ≤ 3000; norm_num)

/-- The expected score is monotone in the player's own rating. -/
lemma calculateExpectedScore_mono_left {a b : ℝ} (c : ℝ) (h : a ≤ b) :
    EloCalculator.calculateExpectedScore a c ≤ EloCalculator.calculateExpectedScore b c := by
  unfold EloCalculator.calculateExpectedScore
  have hexp : (c - b) / 400 ≤ (c - a) / 400 := by linarith
  have hle : (10 : ℝ) ^ ((c - b) / 400) ≤ (10 : ℝ) ^ ((c - a) / 400) :=
    (Real.rpow_le_rpow_left_iff (by norm_num : (1:ℝ) < 10)).mpr hexp
  have hpos : 0 < 1 + (10 : ℝ) ^ ((c - b) / 400) := by positivity
  exact one_div_le_one_div_of_le hpos (by linarith)

/-- The unrounded required rating is the exact inverse of the expected
score. -/
lemma calculateExpectedScore_exact_inverse (opp p : ℝ) (h0 : 0 < p) (h1 : p < 1) :
    EloCalculator.calculateExpectedScore (opp + 400 * Real.logb 10 (p / (1 - p))) opp = p := by
  unfold EloCalculator.calculateExpectedScore
  have hp1 : 0 < 1 - p := by linarith
  have hto : 0 < p / (1 - p) := div_pos h0 hp1
  have he : (opp - (opp + 400 * Real.logb 10 (p / (1 - p)))) / 400 =
      -(Real.logb 10 (p / (1 - p))) := by ring
  rw [he, Real.rpow_neg (by norm_num : (0:ℝ) ≤ 10),
    Real.rpow_logb (by norm_num) (by norm_num) hto, inv_div]
  have hsum : 1 + (1 - p) / p = 1 / p := by field_simp
  rw [hsum, one_div_one_div]

/-- C6. The required rating is the inverse of the expected score up to
integer rounding: for a target score p strictly between 0 and 1 the
unrounded required rating hits p exactly, the returned integer differs from
it by at most one half, the expected score achieved by the returned integer
lies between the expected scores half a point either side of the exact
value, and the concrete instance at opponent rating 1600 and target 0.75
equals 1600 plus the rounded 400*log10(0.75/0.25). -/
theorem requiredRating_inverse_of_expectedScore (opp p : ℝ) (h0 : 0 < p) (h1 : p < 1) :
    EloCalculator.calculateExpectedScore (opp + 400 * Real.logb 10 (p / (1 - p))) opp = p ∧
    (∀ z : ℤ, EloCalculator.calculateRequiredRating opp p = some z →
      |(z : ℝ) - (opp + 400 * Real.logb 10 (p / (1 - p)))| ≤ 1 / 2 ∧
      EloCalculator.calculateExpectedScore (opp + 400 * Real.logb 10 (p / (1 - p)) - 1 / 2) opp ≤
        EloCalculator.calculateExpectedScore (z : ℝ) opp ∧
      EloCalculator.calculateExpectedScore (z : ℝ) opp ≤
        EloCalculator.calculateExpectedScore (opp + 400 * Real.logb 10 (p / (1 - p)) + 1 / 2) opp) ∧
    EloCalculator.calculateRequiredRating 1600 (3 / 4) =
      some (1600 + round (400 * Real.logb 10 ((3 / 4) / (1 - 3 / 4)))) := by
  refine ⟨calculateExpectedScore_exact_inverse opp p h0 h1, ?_, ?_⟩
  · intro z hz
    unfold EloCalculator.calculateRequiredRating at hz
    rw [if_neg (by push_neg; exact ⟨h0, h1⟩)] at hz
    have hz' : z = round (opp + 400 * Real.logb 10 (p / (1 - p))) :=
      (Option.some.injEq _ _).mp hz.symm
    subst hz'
    set x := opp + 400 * Real.logb 10 (p / (1 - p)) with hx
    refine ⟨?_, ?_, ?_⟩
    · have := abs_sub_round x
      rw [abs_sub_comm] at this
      exact this
    · exact calculateExpectedScore_mono_left opp (le_of_lt (sub_half_lt_round x))
    · exact calculateExpectedScore_mono_left opp (round_le_add_half x)
  · unfold EloCalculator.calculateRequiredRating
    rw [if_neg (by norm_num)]
    rw [show (1600 : ℝ) = ((1600 : ℤ) : ℝ) by norm_num, round_int_add]

/-- C6 witness: at opponent rating 0 and target score one half the exact
inverse identity and the rounding bound hold, with returned rating 0. -/
theorem requiredRating_inverse_witness :
    EloCalculator.calculateExpectedScore
      (0 + 400 * Real.logb 10 ((1 / 2) / (1 - 1 / 2))) 0 = 1 / 2 ∧
    |((0 : ℤ) : ℝ) - (0 + 400 * Real.logb 10 ((1 / 2) / (1 - 1 / 2)))| ≤ 1 / 2 := by
  have h := requiredRating_inverse_of_expectedScore 0 (1 / 2) (by norm_num) (by norm_num)
  have hz : EloCalculator.calculateRequiredRating 0 (1 / 2) = some 0 := by
    unfold EloCalculator.calculateRequiredRating
    rw [if_neg (by norm_num)]
    norm_num [Real.logb_one]
  exact ⟨h.1, (h.2.1 0 hz).1⟩

/-- The `reduce`-style left folds of `calculatePerformanceRating` compute
plain sums. -/
lemma foldl_add_eq_sum (f : EloCalculator.PerformanceGame → ℝ)
    (l : List EloCalculator.PerformanceGame) (init : ℝ) :
    l.foldl (fun sum game => sum + f game) init = init + (l.map f).sum := by
  induction l generalizing init with
  | nil => simp
  | cons g gs ih => simp [ih, add_assoc]

/-- The total score of a result list is the number of wins plus half the
number of draws. -/
lemma sum_singleScore (l : List EloCalculator.PerformanceGame) :
    (l.map (fun game => EloCalculator.singleScore game.result)).sum =
      (l.countP (fun game => game.result = SingleResult.win) : ℝ) +
        (l.countP (fun game => game.result = SingleResult.draw) : ℝ) / 2 := by
  induction l with
  | nil => simp
  | cons g gs ih =>
    rw [List.map_cons, List.sum_cons, ih, List.countP_cons, List.countP_cons]
    cases hgr : g.result with
    | win => simp [hgr, EloCalculator.singleScore]; ring
    | loss => simp [hgr, EloCalculator.singleScore]
    | draw => simp [hgr, EloCalculator.singleScore]; ring

/-- C7. For every non-empty result list, `calculatePerformanceRating`
returns the rounded sum of the average opponent rating and the offset
400*log10(p/(1-p)), where p is the fractional score (wins count 1, draws
one half, losses 0, divided by the number of games), with the offset fixed
at +400 when p = 1 and at -400 when p = 0. -/
theorem calculatePerformanceRating_formula
    (l : List EloCalculator.PerformanceGame) (h : l ≠ []) :
    EloCalculator.calculatePerformanceRating l =
      round ((l.map (fun game => game.opponentRating)).sum / (l.length : ℝ) +
        (if ((l.countP (fun game => game.result = SingleResult.win) : ℝ) +
              (l.countP (fun game => game.result = SingleResult.draw) : ℝ) / 2) /
              (l.length : ℝ) = 1 then (400 : ℝ)
         else if ((l.countP (fun game => game.result = SingleResult.win) : ℝ) +
              (l.countP (fun game => game.result = SingleResult.draw) : ℝ) / 2) /
              (l.length : ℝ) = 0 then (-400 : ℝ)
         else 400 * Real.logb 10
           ((((l.countP (fun game => game.result = SingleResult.win) : ℝ) +
              (l.countP (fun game => game.result = SingleResult.draw) : ℝ) / 2) /
              (l.length : ℝ)) /
            (1 - (((l.countP (fun game => game.result = SingleResult.win) : ℝ) +
              (l.countP (fun game => game.result = SingleResult.draw) : ℝ) / 2) /
              (l.length : ℝ)))))) := by
  unfold EloCalculator.calculatePerformanceRating
  rw [if_neg (by simpa using h)]
  rw [foldl_add_eq_sum, foldl_add_eq_sum, zero_add, zero_add, sum_singleScore]

/-- C7 witness: a single win against a 1500-rated opponent gives
performance rating 1500 + 400 = 1900. -/
theorem calculatePerformanceRating_formula_witness :
    EloCalculator.calculatePerformanceRating [⟨1500, SingleResult.win⟩] = 1900 := by
  have h := calculatePerformanceRating_formula [⟨1500, SingleResult.win⟩]
    (by simp)
  rw [h]
  simp only [List.map_cons, List.map_nil, List.sum_cons, List.sum_nil,
    List.length_cons, List.length_nil, List.countP_cons, List.countP_nil]
  norm_num
  rw [if_neg (by decide : ¬ (SingleResult.win = SingleResult.draw))]
  rw [show (400 : ℝ) = ((400 : ℤ) : ℝ) by norm_num, round_intCast]
  norm_num

namespace TournamentService

/-- Pairing loop of `generateSingleEliminationRound`: consecutive elements
of the (caller-shuffled) participant list are paired two at a time; a
trailing odd participant is left unpaired (the bye). Only the produced
pairings are modelled; the games created in storage for each pairing carry
no further pairing information. -/
def generateSingleEliminationMatches {α : Type} : List α → List (α × α)
  | p1 :: p2 :: rest => (p1, p2) :: generateSingleEliminationMatches rest
  | _ => []

/-- Nested loop of `generateRoundRobinRound`: one match per index pair
i < j of the participant list. -/
def generateRoundRobinMatches {α : Type} : List α → List (α × α)
  | [] => []
  | p :: rest => rest.map (fun q => (p, q)) ++ generateRoundRobinMatches rest

lemma generateSingleEliminationMatches_length {α : Type} :
    ∀ l : List α, (generateSingleEliminationMatches l).length = l.length / 2
  | [] => by simp [generateSingleEliminationMatches]
  | [_] => by simp [generateSingleEliminationMatches]
  | _ :: _ :: rest => by
    simp only [generateSingleEliminationMatches, List.length_cons,
      generateSingleEliminationMatches_length rest]
    omega

lemma two_mul_generateRoundRobinMatches_length {α : Type} (l : List α) :
    2 * (generateRoundRobinMatches l).length = l.length * (l.length - 1) := by
  induction l with
  | nil => rfl
  | cons p rest ih =>
    simp only [generateRoundRobinMatches, List.length_append, List.length_map,
      List.length_cons]
    cases hm : rest.length with
    | zero =>
      rw [hm] at ih
      simp at ih
      simp [ih]
    | succ k =>
      rw [hm] at ih
      have : 2 * (k + 1 + (generateRoundRobinMatches rest).length) =
          2 * (k + 1) + 2 * (generateRoundRobinMatches rest).length := by ring
      rw [this, ih]
      simp only [Nat.add_sub_cancel, Nat.succ_sub_one]
      ring

lemma mem_generateRoundRobinMatches {α : Type} {l : List α} {m : α × α}
    (h : m ∈ generateRoundRobinMatches l) : m.1 ∈ l ∧ m.2 ∈ l := by
  induction l with
  | nil => simp [generateRoundRobinMatches] at h
  | cons p rest ih =>
    simp only [generateRoundRobinMatches, List.mem_append, List.mem_map] at h
    rcases h with ⟨q, hq, hm⟩ | h
    · subst hm
      exact ⟨List.mem_cons_self p rest, List.mem_cons_of_mem p hq⟩
    · have := ih h
      exact ⟨List.mem_cons_of_mem p this.1, List.mem_cons_of_mem p this.2⟩

lemma countP_eq_one_of_nodup {α : Type} [DecidableEq α] :
    ∀ xs : List α, xs.Nodup → ∀ b : α, b ∈ xs →
      xs.countP (fun q => q = b) = 1 := by
  intro xs
  induction xs with
  | nil => intro _ b hb; simp at hb
  | cons x xs ih =>
    intro hnd b hb
    obtain ⟨hx, hxs⟩ := List.nodup_cons.mp hnd
    rw [List.countP_cons]
    rcases List.mem_cons.mp hb with rfl | hbx
    · have h0 : xs.countP (fun q => q = b) = 0 := by
        rw [List.countP_eq_zero]
        intro q hq
        simp only [decide_eq_true_eq]
        rintro rfl
        exact hx hq
      simp [h0]
    · have hxb : ¬ (x = b) := fun h => hx (h ▸ hbx)
      rw [ih hxs b hbx]
      simp [hxb]

/-- An unordered pair of distinct participants is matched exactly once by
the round-robin generator, provided the participant list has no
duplicates. -/
lemma generateRoundRobinMatches_pair_once {α : Type} [DecidableEq α] :
    ∀ l : List α, l.Nodup → ∀ a b : α, a ∈ l → b ∈ l → a ≠ b →
      (generateRoundRobinMatches l).countP
        (fun m => (m.1 = a ∧ m.2 = b) ∨ (m.1 = b ∧ m.2 = a)) = 1 := by
  intro l
  induction l with
  | nil => intro _ a b ha; simp at ha
  | cons x xs ih =>
    intro hnd a b ha hb hab
    obtain ⟨hx, hxs⟩ := List.nodup_cons.mp hnd
    rw [generateRoundRobinMatches, List.countP_append, List.countP_map]
    rcases List.mem_cons.mp ha with rfl | hax
    · -- a is the head: the mapped pairs (a, q) contribute one match (a, b)
      have hbxs : b ∈ xs := by
        rcases List.mem_cons.mp hb with rfl | h
        · exact absurd rfl hab
        · exact h
      have hmap : xs.countP
          ((fun m : α × α => decide ((m.1 = a ∧ m.2 = b) ∨ (m.1 = b ∧ m.2 = a))) ∘
            (fun q => (a, q))) = xs.countP (fun q => q = b) := by
        apply List.countP_congr
        intro q _
        by_cases hqb : q = b
        · simp [hqb]
        · simp [hqb, hab]
      have hrest : (generateRoundRobinMatches xs).countP
          (fun m => (m.1 = a ∧ m.2 = b) ∨ (m.1 = b ∧ m.2 = a)) = 0 := by
        rw [List.countP_eq_zero]
        intro m hm
        have hmem := mem_generateRoundRobinMatches hm
        simp only [decide_eq_true_eq]
        rintro (⟨h1, _⟩ | ⟨_, h2⟩)
        · exact hx (h1 ▸ hmem.1)
        · exact hx (h2 ▸ hmem.2)
      rw [hmap, countP_eq_one_of_nodup xs hxs b hbxs, hrest]
    · rcases List.mem_cons.mp hb with rfl | hbx
      · -- b is the head: the mapped pairs (b, q) contribute one match (b, a)
        have hmap : xs.countP
            ((fun m : α × α => decide ((m.1 = a ∧ m.2 = b) ∨ (m.1 = b ∧ m.2 = a))) ∘
              (fun q => (b, q))) = xs.countP (fun q => q = a) := by
          apply List.countP_congr
          intro q _
          by_cases hqa : q = a
          · simp [hqa]
          · simp [hqa, hab.symm]
        have hrest : (generateRoundRobinMatches xs).countP
            (fun m => (m.1 = a ∧ m.2 = b) ∨ (m.1 = b ∧ m.2 = a)) = 0 := by
          rw [List.countP_eq_zero]
          intro m hm
          have hmem := mem_generateRoundRobinMatches hm
          simp only [decide_eq_true_eq]
          rintro (⟨_, h2⟩ | ⟨h1, _⟩)
          · exact hx (h2 ▸ hmem.2)
          · exact hx (h1 ▸ hmem.1)
        rw [hmap, countP_eq_one_of_nodup xs hxs a hax, hrest]
      · -- neither a nor b is the head
        have hxa : x ≠ a := fun h => hx (h ▸ hax)
        have hxb : x ≠ b := fun h => hx (h ▸ hbx)
        have hmap : xs.countP
            ((fun m : α × α => decide ((m.1 = a ∧ m.2 = b) ∨ (m.1 = b ∧ m.2 = a))) ∘
              (fun q => (x, q))) = 0 := by
          rw [List.countP_eq_zero]
          intro q _
          simp [hxa, hxb]
        rw [hmap, ih hxs a b hax hbx hab]

end TournamentService

/-- C5. For every duplicate-free list of participants the single-elimination
generator produces exactly floor(n/2) matches leaving at most one
participant unpaired (the bye), and the round-robin generator produces
exactly n*(n-1)/2 matches in which every unordered pair of distinct
participants appears exactly once. -/
theorem bracket_generator_counts {α : Type} [DecidableEq α]
    (l : List α) (hnd : l.Nodup) :
    (TournamentService.generateSingleEliminationMatches l).length = l.length / 2 ∧
    l.length - 2 * (TournamentService.generateSingleEliminationMatches l).length ≤ 1 ∧
    (TournamentService.generateRoundRobinMatches l).length =
      l.length * (l.length - 1) / 2 ∧
    (∀ a b : α, a ∈ l → b ∈ l → a ≠ b →
      (TournamentService.generateRoundRobinMatches l).countP
        (fun m => (m.1 = a ∧ m.2 = b) ∨ (m.1 = b ∧ m.2 = a)) = 1) := by
  refine ⟨TournamentService.generateSingleEliminationMatches_length l, ?_, ?_, ?_⟩
  · rw [TournamentService.generateSingleEliminationMatches_length l]
    omega
  · have h := TournamentService.two_mul_generateRoundRobinMatches_length l
    rw [← h, Nat.mul_div_cancel_left _ (by norm_num : 0 < 2)]
  · exact TournamentService.generateRoundRobinMatches_pair_once l hnd

/-- C5 witness: three participants give one single-elimination match (one
bye) and three round-robin matches, with the pair 0, 1 matched once. -/
theorem bracket_generator_counts_witness :
    (TournamentService.generateSingleEliminationMatches [0, 1, 2]).length = 1 ∧
    [0, 1, 2].length - 2 * (TournamentService.generateSingleEliminationMatches [0, 1, 2]).length ≤ 1 ∧
    (TournamentService.generateRoundRobinMatches [0, 1, 2]).length = 3 ∧
    (TournamentService.generateRoundRobinMatches [0, 1, 2]).countP
      (fun m => (m.1 = 0 ∧ m.2 = 1) ∨ (m.1 = 1 ∧ m.2 = 0)) = 1 := by
  have h := bracket_generator_counts [0, 1, 2] (by decide)
  exact ⟨h.1, h.2.1, h.2.2.1, h.2.2.2 0 1 (by decide) (by decide) (by decide)⟩

/-- One row of the `users` table, restricted to the fields touched by
`handleGameCompletion`. -/
structure User where
  id : String
  eloRating : ℝ
  gamesPlayed : ℤ
  gamesWon : ℤ
  gamesLost : ℤ
  gamesDrawn : ℤ

/-- One row of the `games` table, restricted to the fields read or written
by `handleGameCompletion` and `checkRoundCompletion`. -/
structure Game where
  id : String
  whitePlayerId : Option String
  blackPlayerId : Option String
  tournamentId : Option String
  status : String
  whiteEloChange : Option ℤ
  blackEloChange : Option ℤ

/-- One row of the `tournaments` table, restricted to the fields read or
written along the `handleGameCompletion` path (timestamps omitted). -/
structure Tournament where
  id : String
  status : String
  winnerId : Option String

/-- The persistence collaborator (`server/storage.ts`), modelled as
in-memory tables; updates patch the row with the matching identifier. -/
structure Storage where
  users : List User
  games : List Game
  tournaments : List Tournament

namespace Storage

/-- `storage.getUser`. -/
def getUser (s : Storage) (id : String) : Option User :=
  s.users.find? (fun u => u.id = id)

/-- `storage.getGame`. -/
def getGame (s : Storage) (id : String) : Option Game :=
  s.games.find? (fun g => g.id = id)

/-- `storage.getTournament`. -/
def getTournament (s : Storage) (id : String) : Option Tournament :=
  s.tournaments.find? (fun t => t.id = id)

/-- `storage.getActiveGames`: the games whose status is `active`. -/
def getActiveGames (s : Storage) : List Game :=
  s.games.filter (fun g => g.status = "active")

/-- `storage.updateUser`: applies the field patch to the matching row. -/
def updateUser (s : Storage) (id : String) (patch : User → User) : Storage :=
  { s with users := s.users.map (fun u => if u.id = id then patch u else u) }

/-- `storage.updateGame`. -/
def updateGame (s : Storage) (id : String) (patch : Game → Game) : Storage :=
  { s with games := s.games.map (fun g => if g.id = id then patch g else g) }

/-- `storage.updateTournament`. -/
def updateTournament (s : Storage) (id : String) (patch : Tournament → Tournament) : Storage :=
  { s with tournaments := s.tournaments.map (fun t => if t.id = id then patch t else t) }

end Storage

/-- Result-string mapping of the exported compatibility wrapper
`calculateEloChange`; the default branch throws, modelled as `none`. -/
def parseGameResult (result : String) : Option SingleResult :=
  if result = "white_wins" ∨ result = "player1_wins" ∨ result = "win" then
    some SingleResult.win
  else if result = "black_wins" ∨ result = "player2_wins" ∨ result = "loss" then
    some SingleResult.loss
  else if result = "draw" then
    some SingleResult.draw
  else
    none

/-- The exported compatibility wrapper `calculateEloChange`, which maps the
result string and delegates to the static method with the default
`gamesPlayed = 50`. -/
noncomputable def calculateEloChange (playerRating opponentRating : ℝ)
    (result : String) : Option ℤ :=
  (parseGameResult result).map
    (fun r => EloCalculator.calculateEloChange playerRating opponentRating r 50)

namespace TournamentService

/-- `getRemainingPlayers`: the source is a stub that always returns the
empty list of user identifiers. -/
def getRemainingPlayers (_s : Storage) (_tournamentId : String) : List String :=
  []

/-- `completeTournament`: marks the tournament completed and records the
winner (the end timestamp and the notification are not modelled). -/
def completeTournament (s : Storage) (tournamentId : String)
    (winnerId : Option String) : Storage :=
  s.updateTournament tournamentId
    (fun t => { t with status := "completed", winnerId := winnerId })

/-- `checkRoundCompletion`: if the tournament is active and has no active
games left, the surviving players are queried (the stub yields none), so at
most one remains and the tournament is completed with
`remainingPlayers[0]?.userId` as winner. The next-round branch is dead code
under the stub and the source ignores all thrown errors. -/
def checkRoundCompletion (s : Storage) (tournamentId : String) : Storage :=
  match s.getTournament tournamentId with
  | none => s
  | some t =>
    if t.status ≠ "active" then s
    else
      let activeGames := s.getActiveGames.filter
        (fun g => g.tournamentId = some tournamentId)
      if activeGames.length = 0 then
        let remainingPlayers := getRemainingPlayers s tournamentId
        if remainingPlayers.length ≤ 1 then
          completeTournament s tournamentId remainingPlayers.head?
        else
          s
      else
        s

/-- `handleGameCompletion`: for a tournament game with both players present,
recomputes the white player's ELO delta from the current ratings, applies
delta and counter updates to both users, stores the deltas on the game and
then checks round completion. A thrown invalid-result error is swallowed by
the outer catch, leaving storage unchanged. There is no guard against the
game having been processed before. -/
noncomputable def handleGameCompletion (s : Storage) (gameId result : String) : Storage :=
  match s.getGame gameId with
  | none => s
  | some game =>
    match game.tournamentId with
    | none => s
    | some tournamentId =>
      match s.getTournament tournamentId with
      | none => s
      | some _ =>
        match game.whitePlayerId, game.blackPlayerId with
        | some whiteId, some blackId =>
          (match s.getUser whiteId, s.getUser blackId with
          | some whitePlayer, some blackPlayer =>
            (match calculateEloChange whitePlayer.eloRating blackPlayer.eloRating result with
            | none => s
            | some whiteEloChange =>
              let blackEloChange := -whiteEloChange
              let s1 := s.updateUser whiteId (fun u =>
                { u with
                  eloRating := whitePlayer.eloRating + (whiteEloChange : ℝ)
                  gamesPlayed := whitePlayer.gamesPlayed + 1
                  gamesWon := if result = "white_wins" then whitePlayer.gamesWon + 1
                    else whitePlayer.gamesWon
                  gamesLost := if result = "black_wins" then whitePlayer.gamesLost + 1
                    else whitePlayer.gamesLost
                  gamesDrawn := if result = "draw" then whitePlayer.gamesDrawn + 1
                    else whitePlayer.gamesDrawn })
              let s2 := s1.updateUser blackId (fun u =>
                { u with
                  eloRating := blackPlayer.eloRating + (blackEloChange : ℝ)
                  gamesPlayed := blackPlayer.gamesPlayed + 1
                  gamesWon := if result = "black_wins" then blackPlayer.gamesWon + 1
                    else blackPlayer.gamesWon
                  gamesLost := if result = "white_wins" then blackPlayer.gamesLost + 1
                    else blackPlayer.gamesLost
                  gamesDrawn := if result = "draw" then blackPlayer.gamesDrawn + 1
                    else blackPlayer.gamesDrawn })
              let s3 := s2.updateGame gameId (fun g =>
                { g with
                  whiteEloChange := some whiteEloChange
                  blackEloChange := some blackEloChange })
              checkRoundCompletion s3 tournamentId)
          | _, _ => checkRoundCompletion s tournamentId)
        | _, _ => checkRoundCompletion s tournamentId

end TournamentService

/-- The static `calculateEloChange` on two equal 1200 ratings and a win:
K-factor 40, expected score one half, delta 20. -/
lemma eloChange_equal1200_win :
    EloCalculator.calculateEloChange 1200 1200 SingleResult.win 50 = 20 := by
  have hk : EloCalculator.calculateKFactor 1200 50 none = 40 :=
    calculateKFactor_none_low 1200 50 (by norm_num) (by norm_num)
  simp only [EloCalculator.calculateEloChange, hk, calculateExpectedScore_self]
  rw [show (40 : ℝ) * (1 - 1 / 2) = ((20 : ℤ) : ℝ) by norm_num, round_intCast]

/-- The wrapper maps `white_wins` to a win for the white player. -/
lemma calculateEloChange_white_wins (a b : ℝ) :
    calculateEloChange a b "white_wins" =
      some (EloCalculator.calculateEloChange a b SingleResult.win 50) := by
  simp [calculateEloChange, parseGameResult]

/-- A completed but unguarded tournament game between two equal 1200-rated
players, ready to be replayed through `handleGameCompletion`. -/
def replayState : Storage where
  users := [⟨"w", 1200, 50, 20, 20, 10⟩, ⟨"b", 1200, 50, 20, 20, 10⟩]
  games := [⟨"g", some "w", some "b", some "t", "completed", none, none⟩]
  tournaments := [⟨"t", "active", none⟩]

/-- The storage contents after the first `handleGameCompletion` call on
`replayState`. -/
def replayAfterOne : Storage where
  users := [⟨"w", 1220, 51, 21, 20, 10⟩, ⟨"b", 1180, 51, 20, 21, 10⟩]
  games := [⟨"g", some "w", some "b", some "t", "completed", some 20, some (-20)⟩]
  tournaments := [⟨"t", "completed", none⟩]

/-- Evaluation of the first call: the deltas +20 and -20 are applied and
the round-completion check completes the tournament. -/
lemma replay_first :
    TournamentService.handleGameCompletion replayState "g" "white_wins" = replayAfterOne := by
  simp only [TournamentService.handleGameCompletion, replayState, Storage.getGame,
    Storage.getTournament, Storage.getUser, List.find?, calculateEloChange_white_wins,
    eloChange_equal1200_win]
  simp only [TournamentService.checkRoundCompletion, TournamentService.completeTournament,
    TournamentService.getRemainingPlayers, Storage.getActiveGames, Storage.getTournament,
    Storage.updateUser, Storage.updateGame, Storage.updateTournament,
    Storage.getUser, List.find?, List.map, List.filter, replayAfterOne]
  simp
  simp only [eloChange_equal1200_win]
  norm_num

/-- After the first application the ratings are 1220 and 1180; replaying the
win still yields a strictly positive delta of at least 4 points. -/
lemma eloChange_1220_1180_ge_four :
    4 ≤ EloCalculator.calculateEloChange 1220 1180 SingleResult.win 50 := by
  have hk : EloCalculator.calculateKFactor 1220 50 none = 40 :=
    calculateKFactor_none_low 1220 50 (by norm_num) (by norm_num)
  have hmono : (10 : ℝ) ^ ((-1 : ℤ) : ℝ) ≤ (10 : ℝ) ^ (-(1 / 10) : ℝ) :=
    (Real.rpow_le_rpow_left_iff (by norm_num : (1:ℝ) < 10)).mpr (by norm_num)
  have hval : (10 : ℝ) ^ ((-1 : ℤ) : ℝ) = 1 / 10 := by
    rw [Real.rpow_intCast]
    norm_num
  have htenth : (1 / 10 : ℝ) ≤ (10 : ℝ) ^ (-(1 / 10) : ℝ) := hval ▸ hmono
  have hES : EloCalculator.calculateExpectedScore 1220 1180 ≤ 10 / 11 := by
    unfold EloCalculator.calculateExpectedScore
    rw [show ((1180 : ℝ) - 1220) / 400 = -(1 / 10) by norm_num]
    have h11 : (11 : ℝ) / 10 ≤ 1 + (10 : ℝ) ^ (-(1 / 10) : ℝ) := by linarith
    calc 1 / (1 + (10 : ℝ) ^ (-(1 / 10) : ℝ)) ≤ 1 / ((11 : ℝ) / 10) :=
          one_div_le_one_div_of_le (by norm_num) h11
      _ = 10 / 11 := by norm_num
  simp only [EloCalculator.calculateEloChange, hk]
  have hlt := sub_half_lt_round
    ((40 : ℝ) * (1 - EloCalculator.calculateExpectedScore 1220 1180))
  have h3 : (3 : ℝ) <
      ((round ((40 : ℝ) * (1 - EloCalculator.calculateExpectedScore 1220 1180)) : ℤ) : ℝ) := by
    linarith
  have h3' : (3 : ℤ) <
      round ((40 : ℝ) * (1 - EloCalculator.calculateExpectedScore 1220 1180)) := by
    exact_mod_cast h3
  omega

/-- Evaluation of the second call on the already-processed state: the white
player is updated again, receiving a further positive delta. -/
lemma replay_second_user :
    ∃ d : ℤ, 4 ≤ d ∧
      (TournamentService.handleGameCompletion replayAfterOne "g" "white_wins").getUser "w" =
        some ⟨"w", 1220 + (d : ℝ), 52, 22, 20, 10⟩ := by
  refine ⟨EloCalculator.calculateEloChange 1220 1180 SingleResult.win 50,
    eloChange_1220_1180_ge_four, ?_⟩
  simp only [TournamentService.handleGameCompletion, replayAfterOne, Storage.getGame,
    Storage.getTournament, Storage.getUser, List.find?, calculateEloChange_white_wins,
    TournamentService.checkRoundCompletion, TournamentService.completeTournament,
    TournamentService.getRemainingPlayers, Storage.getActiveGames,
    Storage.updateUser, Storage.updateGame, Storage.updateTournament,
    List.map, List.filter]
  simp

/-- C2. `handleGameCompletion` is not idempotent: replaying `white_wins` for
the already-completed match `g` updates the white player's row again, so the
rating delta is applied twice (1200 to 1220 on the first call, then at least
4 further points on the second) and the game counters are double-counted. -/
theorem handleGameCompletion_double_applies_rating_delta :
    ∃ u1 u2 : User,
      (TournamentService.handleGameCompletion replayState "g" "white_wins").getUser "w" =
        some u1 ∧
      (TournamentService.handleGameCompletion
          (TournamentService.handleGameCompletion replayState "g" "white_wins")
          "g" "white_wins").getUser "w" = some u2 ∧
      u1.eloRating = 1220 ∧ u1.gamesPlayed = 51 ∧
      u2.gamesPlayed = 52 ∧ u1.eloRating + 4 ≤ u2.eloRating := by
  obtain ⟨d, hd, hu2⟩ := replay_second_user
  refine ⟨⟨"w", 1220, 51, 21, 20, 10⟩, ⟨"w", 1220 + (d : ℝ), 52, 22, 20, 10⟩,
    ?_, ?_, rfl, rfl, rfl, ?_⟩
  · rw [replay_first]
    simp [Storage.getUser, replayAfterOne, List.find?]
  · rw [replay_first]
    exact hu2
  · have hdr : (4 : ℝ) ≤ (d : ℝ) := by exact_mod_cast hd
    show (1220 : ℝ) + 4 ≤ 1220 + (d : ℝ)
    linarith
